import Mathlib

/-!
Verification development for the Karaoke repository's pitch-analysis core.

The numeric code (yin.ts, smoothing.ts, the segmentation loops in
FileMelodyExtractor.tsx and Generator.tsx) is embedded shallowly over exact
rationals: a JavaScript `number` that stays finite is an exact `ℚ` (we ignore
floating-point rounding), and the non-finite values `NaN` / `±Infinity`,
which these code paths only ever test with comparisons (always false) and
`Number.isFinite`, are modelled by the `JNum.nf` marker or by `Option`
(`none` = JS `NaN` where only finiteness matters).  The transcendental
pitch-conversion math (music.ts) is embedded over `ℝ`.
-/

/-- Model of a JavaScript `number` result that is either finite (an exact
rational) or non-finite (`NaN` or `±Infinity`).  Every consumer of such a
value in the embedded code distinguishes only finite from non-finite
(via `Number.isFinite`, or via comparisons, which are false on non-finite
values), so the non-finite values are conflated into one marker. -/
inductive JNum where
  | nf
  | fin (q : ℚ)
deriving DecidableEq

/-- YinConfig from yin.ts.  `threshold`, `probabilityThreshold` and
`sampleRate` are required fields of the TypeScript type; `minFreq` and
`maxFreq` are optional (the code applies the defaults 50 and 1200 with `??`). -/
structure YinConfig where
  threshold : ℚ
  probabilityThreshold : ℚ
  sampleRate : ℚ
  minFreq : Option ℚ
  maxFreq : Option ℚ
deriving DecidableEq

/-- YinResult from yin.ts: `freqHz` is `number | null` (`none` = `null`,
`some .nf` = a present but non-finite number), `probability` is a number. -/
structure YinResult where
  freqHz : Option JNum
  probability : ℚ
deriving DecidableEq

/-- `minLag = Math.floor(sr / (cfg.maxFreq ?? 1200))`.  `Math.floor` on a
finite quotient is `Int.floor`; for the configurations reachable without a
JavaScript exception (`new Float32Array(maxLag + 1)` throws when
`maxLag + 1 < 0`) the floors are nonnegative, so `Int.toNat` is exact there
and lets lags be natural numbers. -/
def minLagN (cfg : YinConfig) : ℕ :=
  (⌊cfg.sampleRate / (cfg.maxFreq.getD 1200)⌋).toNat

/-- `maxLag = Math.floor(sr / (cfg.minFreq ?? 50))` (see `minLagN`). -/
def maxLagN (cfg : YinConfig) : ℕ :=
  (⌊cfg.sampleRate / (cfg.minFreq.getD 50)⌋).toNat

/-- `N = Math.min(frame.length, maxLag * 2)` from yin.ts step 1. -/
def frameN (frame : List ℚ) (cfg : YinConfig) : ℕ :=
  min frame.length (maxLagN cfg * 2)

/-- `frame[i]`; every access in yin.ts is in bounds (`i + tau < N ≤ length`),
so the default value is never produced. -/
def sampleAt (frame : List ℚ) (i : ℕ) : ℚ :=
  frame.getD i 0

/-- The difference function `diff[tau]` of yin.ts step 3, as the content of
the `diff` array after the loop: `Σ_{i + τ < N} (frame[i] - frame[i+τ])²`
for `τ ∈ [minLag, maxLag]`, and the `Float32Array` zero initialisation
everywhere else. -/
def diffAt (frame : List ℚ) (cfg : YinConfig) (τ : ℕ) : ℚ :=
  if minLagN cfg ≤ τ ∧ τ ≤ maxLagN cfg then
    ((List.range (frameN frame cfg - τ)).map
      (fun i => (sampleAt frame i - sampleAt frame (i + τ)) ^ 2)).sum
  else 0

/-- The value of `runningSum` in yin.ts step 4 after the iteration for lag
`τ` has executed (`runningSum += diff[tau]` happens before `cmnd[tau]` is
written, so the sum includes `diff[τ]`). -/
def runningSumAt (frame : List ℚ) (cfg : YinConfig) (τ : ℕ) : ℚ :=
  ((List.range τ).map (fun k => diffAt frame cfg (k + 1))).sum

/-- The content of the `cmnd` array of yin.ts step 4: `cmnd[0] = 1`;
`cmnd[τ] = diff[τ]·τ / runningSum` for `1 ≤ τ ≤ maxLag`.  When the running
sum is zero the JavaScript quotient is `0·τ/0 = NaN` (the difference values
are sums of squares, so a zero running sum forces `diff[τ] = 0`), modelled
as `none`; `none` is also the out-of-bounds read (`undefined`), which
behaves like `NaN` in every later comparison. -/
def cmndAt (frame : List ℚ) (cfg : YinConfig) (τ : ℕ) : Option ℚ :=
  if τ = 0 then some 1
  else if τ ≤ maxLagN cfg then
    if runningSumAt frame cfg τ = 0 then none
    else some (diffAt frame cfg τ * τ / runningSumAt frame cfg τ)
  else none

/-- The loop test `cmnd[t] < threshold` of yin.ts step 5.  A `NaN` entry
(`none`) compares false. -/
def cmndBelow (frame : List ℚ) (cfg : YinConfig) (t : ℕ) : Bool :=
  match cmndAt frame cfg t with
  | some v => decide (v < cfg.threshold)
  | none => false

/-- The scan of yin.ts step 5: the first `t ∈ [minLag, maxLag]` with
`cmnd[t] < threshold`, `none` when the loop finds nothing (`tau = -1`). -/
def selectedTau (frame : List ℚ) (cfg : YinConfig) : Option ℕ :=
  (List.range' (minLagN cfg) (maxLagN cfg + 1 - minLagN cfg)).find?
    (cmndBelow frame cfg)

/-- The parabolic refinement of yin.ts step 7: the value of `betterTau`.
If a neighbouring `cmnd` entry is `NaN` (`none`), the JavaScript `denom` is
`NaN`, the test `denom !== 0` passes, and `betterTau` becomes `NaN`:
modelled by `none`. -/
def betterTauAt (frame : List ℚ) (cfg : YinConfig) (τ : ℕ) : Option ℚ :=
  if τ + 1 ≤ maxLagN cfg ∧ minLagN cfg + 1 ≤ τ then
    match cmndAt frame cfg (τ - 1), cmndAt frame cfg τ, cmndAt frame cfg (τ + 1) with
    | some s0, some s1, some s2 =>
      if 2 * s1 - s2 - s0 ≠ 0 then some (τ + (s2 - s0) / (2 * (2 * s1 - s2 - s0)))
      else some τ
    | _, _, _ => none
  else some τ

/-- `freq = sr / betterTau` of yin.ts step 8 as a JavaScript number:
`NaN / anything`, and a finite numerator over zero (`±Infinity`, or `NaN`
for `0/0`), are non-finite; otherwise the exact rational quotient. -/
def mkFreq (sr : ℚ) (bt : Option ℚ) : JNum :=
  match bt with
  | none => .nf
  | some b => if b = 0 then .nf else .fin (sr / b)

/-- The yin function of yin.ts (steps 5-11).  There is no configuration
validation anywhere in the function: every call runs the scan and returns
an ordinary `YinResult`. -/
def yin (frame : List ℚ) (cfg : YinConfig) : YinResult :=
  match selectedTau frame cfg with
  | none => ⟨none, 0⟩
  | some τ =>
    let prob := 1 - (cmndAt frame cfg τ).getD 0
    if prob < cfg.probabilityThreshold then ⟨none, prob⟩
    else ⟨some (mkFreq cfg.sampleRate (betterTauAt frame cfg τ)), prob⟩

/-- `ema` from smoothing.ts.  `prev : number | null` (`none` = `null`,
`some .nf` = a non-finite number, for which `Number.isFinite(prev)` is
false and the function also returns `next` unchanged). -/
def ema (prev : Option JNum) (next : JNum) (alpha : ℚ) : JNum :=
  match prev with
  | none => next
  | some .nf => next
  | some (.fin p) =>
    match next with
    | .nf => .nf
    | .fin n => .fin (p * (1 - alpha) + n * alpha)

/-- One smoothing step of the `loop` body in pitchTracker.ts: from the
current `lastEma` field and the estimate's `freqHz`, produce the emitted
`freq` and the new `lastEma`.  `smoothed` is `null` exactly when `freqHz`
is `null`; only a non-null `smoothed` is written back, and the emitted
frequency is `smoothed ?? res.freqHz`. -/
def trackerTick (lastEma : Option JNum) (resFreqHz : Option JNum) :
    Option JNum × Option JNum :=
  match resFreqHz with
  | none => (none, lastEma)
  | some v => (some (ema lastEma v (1/4)), some (ema lastEma v (1/4)))

/-- Ascending insertion used to model the JavaScript
`slice.sort((a, b) => a - b)` (ascending numeric sort). -/
def insertSorted (x : ℚ) : List ℚ → List ℚ
  | [] => [x]
  | y :: ys => if x ≤ y then x :: y :: ys else y :: insertSorted x ys

/-- Ascending sort of a list of rationals (see `insertSorted`). -/
def sortAsc (l : List ℚ) : List ℚ :=
  l.foldr insertSorted []

/-- `medianFilter` from smoothing.ts over a sequence whose entries are
either finite (`some q`) or non-finite (`none`; the source marks absent
samples `NaN` and drops every non-finite entry with `Number.isFinite`).
The window is clipped to the bounds, non-finite entries are dropped, and
the lower median of the sorted remainder is emitted; an empty window
emits `NaN` (`none`). -/
def medianFilter (arr : List (Option ℚ)) (win : ℕ) : List (Option ℚ) :=
  let w := if win % 2 = 1 then win else win + 1
  let hw := w / 2
  (List.range arr.length).map (fun i =>
    let slice := ((arr.drop (i - hw)).take (min arr.length (i + hw + 1) - (i - hw))).filterMap id
    (sortAsc slice).get? (slice.length / 2))

/-- `hzToMidi` from music.ts: `null` for zero, negative (and `NaN`: no such
input below) frequencies, otherwise `69 + 12·log2(hz/440)` as a real. -/
noncomputable def hzToMidi (hz : ℝ) : Option ℝ :=
  if hz ≤ 0 then none else some (69 + 12 * Real.logb 2 (hz / 440))

/-- `midiToHz` from music.ts: `440 · 2^((midi − 69)/12)`. -/
noncomputable def midiToHz (midi : ℝ) : ℝ :=
  440 * (2 : ℝ) ^ ((midi - 69) / 12)

/-- A quantized pitch value as it flows through the segmentation loops:
an integer `val`, or the JavaScript junk pitches that arise when the
(unreachable in practice) frequencies `hz < 0` (`Math.log2` gives `NaN`,
`Math.round(NaN) = NaN`) or `hz = 0` (`-Infinity`) reach the quantizer:
both are `!= null` and therefore open and extend notes. -/
inductive QPitch where
  | nan
  | negInf
  | val (z : ℤ)
deriving DecidableEq

/-- The pitch-change test `Math.abs(q - curMidi) > 0` of both segmentation
loops.  Any comparison involving `NaN` is false (`NaN` never "differs");
`|±Infinity - v| > 0` is true; `(-Infinity) - (-Infinity) = NaN`, false. -/
def pitchDiffers (q m : QPitch) : Bool :=
  match q, m with
  | .val a, .val b => a != b
  | .negInf, .val _ => true
  | .val _, .negInf => true
  | _, _ => false

/-- The per-frame quantization of FileMelodyExtractor.tsx
(`hzToMidiNumber` followed by `Math.round`): `null` stays `null`, a
positive frequency becomes `Math.round(69 + 12·log2(hz/440))`
(JavaScript `Math.round x = ⌊x + 1/2⌋` is Mathlib's `round`), and the
junk cases are described at `QPitch`. -/
noncomputable def fileQuant (v : Option ℚ) : Option QPitch :=
  match v with
  | none => none
  | some hz =>
    if hz < 0 then some .nan
    else if hz = 0 then some .negInf
    else some (.val (round ((69 : ℝ) + 12 * Real.logb 2 ((hz : ℝ) / 440))))

/-- The per-frame quantization of Generator.tsx (`Number.isFinite` guard,
then `69 + 12·log2(hz/440)`, then `Math.round`): textually the same
computation as `fileQuant`. -/
noncomputable def genQuant (v : Option ℚ) : Option QPitch :=
  match v with
  | none => none
  | some hz =>
    if hz < 0 then some .nan
    else if hz = 0 then some .negInf
    else some (.val (round ((69 : ℝ) + 12 * Real.logb 2 ((hz : ℝ) / 440))))

/-- A committed note of the segmentation loops.  The source `Note` also
carries `id: crypto.randomUUID()`, a freshly generated identifier with no
other role; it is omitted here. -/
structure SegNote where
  start : ℚ
  duration : ℚ
  midi : QPitch
deriving DecidableEq

/-- The segmentation loop of FileMelodyExtractor.tsx (step 6 plus the final
close), as structural recursion over the quantized sequence.  `i` is the
loop index, `curStart`/`curMidi` the open-note accumulator, `notes` the
committed list.  On closing at an unvoiced frame this version keeps
`curStart` unchanged (it is dead until the next note opens). -/
def segGoFile (fd : ℚ) : ℕ → ℚ → Option QPitch → List SegNote → List (Option QPitch) → List SegNote
  | i, curStart, curMidi, notes, [] =>
    match curMidi with
    | none => notes
    | some m =>
      if (0.08 : ℚ) ≤ (i : ℚ) * fd - curStart then
        notes ++ [⟨curStart, (i : ℚ) * fd - curStart, m⟩]
      else notes
  | i, curStart, curMidi, notes, none :: rest =>
    match curMidi with
    | none => segGoFile fd (i + 1) curStart none notes rest
    | some m =>
      segGoFile fd (i + 1) curStart none
        (if (0.08 : ℚ) ≤ (i : ℚ) * fd - curStart then
          notes ++ [⟨curStart, (i : ℚ) * fd - curStart, m⟩]
         else notes) rest
  | i, curStart, curMidi, notes, some p :: rest =>
    match curMidi with
    | none => segGoFile fd (i + 1) ((i : ℚ) * fd) (some p) notes rest
    | some m =>
      if pitchDiffers p m then
        segGoFile fd (i + 1) ((i : ℚ) * fd) (some p)
          (if (0.08 : ℚ) ≤ (i : ℚ) * fd - curStart then
            notes ++ [⟨curStart, (i : ℚ) * fd - curStart, m⟩]
           else notes) rest
      else segGoFile fd (i + 1) curStart curMidi notes rest

/-- The segmentation loop of Generator.tsx `analyzePart`: identical to
`segGoFile` except that closing at an unvoiced frame resets `curStart`
to `-1` (and the accumulator starts at `-1`, see `segmentGenNotes`). -/
def segGoGen (fd : ℚ) : ℕ → ℚ → Option QPitch → List SegNote → List (Option QPitch) → List SegNote
  | i, curStart, curMidi, notes, [] =>
    match curMidi with
    | none => notes
    | some m =>
      if (0.08 : ℚ) ≤ (i : ℚ) * fd - curStart then
        notes ++ [⟨curStart, (i : ℚ) * fd - curStart, m⟩]
      else notes
  | i, curStart, curMidi, notes, none :: rest =>
    match curMidi with
    | none => segGoGen fd (i + 1) curStart none notes rest
    | some m =>
      segGoGen fd (i + 1) (-1) none
        (if (0.08 : ℚ) ≤ (i : ℚ) * fd - curStart then
          notes ++ [⟨curStart, (i : ℚ) * fd - curStart, m⟩]
         else notes) rest
  | i, curStart, curMidi, notes, some p :: rest =>
    match curMidi with
    | none => segGoGen fd (i + 1) ((i : ℚ) * fd) (some p) notes rest
    | some m =>
      if pitchDiffers p m then
        segGoGen fd (i + 1) ((i : ℚ) * fd) (some p)
          (if (0.08 : ℚ) ≤ (i : ℚ) * fd - curStart then
            notes ++ [⟨curStart, (i : ℚ) * fd - curStart, m⟩]
           else notes) rest
      else segGoGen fd (i + 1) curStart curMidi notes rest

/-- FileMelodyExtractor.tsx segmentation entry: `curStart = 0`,
`curMidi = null`, empty output, loop from index 0. -/
def segmentFileNotes (fd : ℚ) (qs : List (Option QPitch)) : List SegNote :=
  segGoFile fd 0 0 none [] qs

/-- Generator.tsx segmentation entry: `curStart = -1`, `curMidi = null`,
empty output, loop from index 0. -/
def segmentGenNotes (fd : ℚ) (qs : List (Option QPitch)) : List SegNote :=
  segGoGen fd 0 (-1) none [] qs

/-- `FRAME_SIZE = 2048` (both analysis sites). -/
def FRAME_SIZE : ℕ := 2048

/-- `HOP_SIZE = 512` (both analysis sites; Generator.tsx calls it `HOP`). -/
def HOP_SIZE : ℕ := 512

/-- The window start indices of the FileMelodyExtractor.tsx analysis loop
`for (let i = 0; i + FRAME_SIZE < ch0.length; i += HOP_SIZE)`: the
multiples of the hop with a full window strictly inside the buffer. -/
def frameStartsFile (len : ℕ) : List ℕ :=
  (List.range len).filter (fun i => decide (i % HOP_SIZE = 0) && decide (i + FRAME_SIZE < len))

/-- The window start indices of the Generator.tsx analysis loop (same
loop header as FileMelodyExtractor.tsx). -/
def frameStartsGen (len : ℕ) : List ℕ :=
  (List.range len).filter (fun i => decide (i % HOP_SIZE = 0) && decide (i + FRAME_SIZE < len))

/-- The YinConfig literal of the FileMelodyExtractor.tsx call site. -/
def fileYinCfg (sr : ℚ) : YinConfig :=
  ⟨0.12, 0.1, sr, some 50, some 1200⟩

/-- The YinConfig literal of the Generator.tsx call site. -/
def genYinCfg (sr : ℚ) : YinConfig :=
  ⟨0.12, 0.1, sr, some 50, some 1200⟩

/-- The raw per-hop F0 sequence of FileMelodyExtractor.tsx step 4. -/
def fileF0 (samples : List ℚ) (sr : ℚ) : List (Option JNum) :=
  (frameStartsFile samples.length).map
    (fun i => (yin ((samples.drop i).take FRAME_SIZE) (fileYinCfg sr)).freqHz)

/-- The raw per-hop F0 sequence of Generator.tsx. -/
def genF0 (samples : List ℚ) (sr : ℚ) : List (Option JNum) :=
  (frameStartsGen samples.length).map
    (fun i => (yin ((samples.drop i).take FRAME_SIZE) (genYinCfg sr)).freqHz)

/-- The `f0.map(v => v ?? NaN)` step feeding `medianFilter`: `null` becomes
`NaN`, and since `medianFilter` treats every non-finite entry alike, a
present non-finite frequency also maps to `none`. -/
def toFinite (v : Option JNum) : Option ℚ :=
  match v with
  | none => none
  | some .nf => none
  | some (.fin q) => some q

/-- The full FileMelodyExtractor.tsx batch pipeline from decoded samples to
the committed note list: sliding-window yin, median filter of width 7,
quantization, segmentation with frame duration `HOP_SIZE / sr`. -/
noncomputable def fileNotes (samples : List ℚ) (sr : ℚ) : List SegNote :=
  segmentFileNotes ((HOP_SIZE : ℚ) / sr)
    ((medianFilter ((fileF0 samples sr).map toFinite) 7).map fileQuant)

/-- The full Generator.tsx batch pipeline (same stages, Generator's own
copies). -/
noncomputable def genNotes (samples : List ℚ) (sr : ℚ) : List SegNote :=
  segmentGenNotes ((HOP_SIZE : ℚ) / sr)
    ((medianFilter ((genF0 samples sr).map toFinite) 7).map genQuant)

/-- Events of the PitchTracker scheduling model: `start()` / `stop()`
calls, and the browser firing the pending animation-frame callback with
id `i`. -/
inductive TEvent where
  | start
  | stop
  | fire (i : ℕ)
deriving DecidableEq

/-- State of the PitchTracker scheduling model: the browser's next
callback id, the ids currently scheduled (one per live analysis loop),
and the tracker's `rafId` field. -/
structure RTState where
  nextId : ℕ
  pending : List ℕ
  rafId : Option ℕ
deriving DecidableEq

/-- A fresh tracker: nothing scheduled, `rafId = null`. -/
def rtInit : RTState :=
  ⟨0, [], none⟩

/-- `start()` from pitchTracker.ts: it only calls
`requestAnimationFrame(loop)` and stores the returned id in `rafId`; no
existing pending callback is cancelled. -/
def trackerStartStep (s : RTState) : RTState :=
  ⟨s.nextId + 1, s.pending ++ [s.nextId], some s.nextId⟩

/-- `stop()` from pitchTracker.ts:
`if (rafId != null) cancelAnimationFrame(rafId); rafId = null`. -/
def trackerStopStep (s : RTState) : RTState :=
  match s.rafId with
  | none => s
  | some i => ⟨s.nextId, s.pending.erase i, none⟩

/-- The browser fires scheduled callback `i`: it is removed from the
pending set and the `loop` body runs, ending in
`rafId = requestAnimationFrame(loop)`.  Firing an id that is not pending
is a no-op. -/
def fireStep (i : ℕ) (s : RTState) : RTState :=
  if i ∈ s.pending then ⟨s.nextId + 1, s.pending.erase i ++ [s.nextId], some s.nextId⟩
  else s

/-- One event of the scheduling model. -/
def rtStep (s : RTState) : TEvent → RTState
  | .start => trackerStartStep s
  | .stop => trackerStopStep s
  | .fire i => fireStep i s

/-- Run a sequence of events. -/
def runEvents (s : RTState) : List TEvent → RTState :=
  List.foldl rtStep s

/-- The start/stop discipline under which the tracker is driven when every
`start()` happens while nothing is scheduled (fresh, or after `stop()`):
checks each `start` event against the state it executes in. -/
def okRun (s : RTState) : List TEvent → Bool
  | [] => true
  | e :: r =>
    (match e with
     | .start => s.pending.isEmpty
     | _ => true) && okRun (rtStep s e) r

/-- Single-run invariant of the scheduling model: nothing is scheduled, or
exactly the tick recorded in `rafId` is scheduled. -/
def singleRunState (s : RTState) : Prop :=
  s.pending = [] ∨ ∃ i, s.rafId = some i ∧ s.pending = [i]

/-- The all-zero (silence) frame of a given length. -/
def silenceFrame (len : ℕ) : List ℚ :=
  List.replicate len 0

/-- Concrete frame for the degenerate-sum counterexample: all-zero, with
a config whose lag range is `[2, 4]` at sample rate 8. -/
def zcfg : YinConfig :=
  ⟨0.12, 0.1, 8, some 2, some 4⟩

/-- A config violating both validity conditions of the specification:
`sampleRate = 0` and `minFreq = 1200 ≥ 50 = maxFreq`. -/
def badCfg : YinConfig :=
  ⟨0.12, 0.1, 0, some 1200, some 50⟩

/-- Concrete frame (samples in `[-1, 1]`) on which the threshold scan
finds a lag but the probability gate rejects it. -/
def c4frame : List ℚ :=
  [1, 0, 1/2, 0, 1/2, 0, 1/2, 0]

/-- Config for `c4frame`: lag range `[2, 4]` at sample rate 4, threshold
0.95, probability gate 0.9. -/
def c4cfg : YinConfig :=
  ⟨0.95, 0.9, 4, some 1, some 2⟩

/-- Concrete frame (samples in `[-1, 1]`) on which the parabolic
refinement drives the refined lag negative. -/
def c5frame : List ℚ :=
  [-1, -1, -1, -1, -1, 1, -1, -1/2]

/-- Config for `c5frame`: lag range `[1, 4]` at sample rate 12, threshold
0.9, probability gate 0.1; all fields satisfy the specification's
validity constraints. -/
def c5cfg : YinConfig :=
  ⟨9/10, 1/10, 12, some 3, some 12⟩

/-- A successful `find?` over `List.range' s n` returns the first element
of the range satisfying the predicate. -/
lemma find?_range'_eq_some {p : ℕ → Bool} :
    ∀ (n s a : ℕ), (List.range' s n).find? p = some a →
      s ≤ a ∧ a < s + n ∧ p a = true ∧ ∀ t, s ≤ t → t < a → p t = false := by
  intro n
  induction n with
  | zero =>
    intro s a h
    simp [List.range'] at h
  | succ m ih =>
    intro s a h
    rw [List.range'_succ] at h
    by_cases hs : p s
    · rw [List.find?_cons_of_pos _ hs] at h
      cases h
      exact ⟨le_rfl, by omega, hs, fun t h1 h2 => absurd h1 (by omega)⟩
    · rw [List.find?_cons_of_neg _ hs] at h
      obtain ⟨h1, h2, h3, h4⟩ := ih (s + 1) a h
      refine ⟨by omega, by omega, h3, fun t ht1 ht2 => ?_⟩
      rcases Nat.eq_or_lt_of_le ht1 with rfl | hlt
      · exact Bool.not_eq_true _ ▸ (by simp [hs])
      · exact h4 t hlt ht2

/-- Helper: every sample of the silence frame is zero. -/
lemma sampleAt_silence (len i : ℕ) : sampleAt (silenceFrame len) i = 0 := by
  unfold sampleAt silenceFrame
  induction len generalizing i with
  | zero => simp
  | succ n ih =>
    cases i with
    | zero => simp [List.replicate]
    | succ j => simp [List.replicate, ih j]

/-- Helper: the difference function of a silence frame vanishes. -/
lemma diffAt_silence (len : ℕ) (cfg : YinConfig) (τ : ℕ) :
    diffAt (silenceFrame len) cfg τ = 0 := by
  unfold diffAt
  split
  · exact List.sum_eq_zero (by
      intro x hx
      obtain ⟨i, _, rfl⟩ := List.mem_map.mp hx
      simp [sampleAt_silence])
  · rfl

/-- Helper: the running sum of a silence frame vanishes at every lag. -/
lemma runningSumAt_silence (len : ℕ) (cfg : YinConfig) (τ : ℕ) :
    runningSumAt (silenceFrame len) cfg τ = 0 := by
  unfold runningSumAt
  exact List.sum_eq_zero (by
    intro x hx
    obtain ⟨i, _, rfl⟩ := List.mem_map.mp hx
    simp [diffAt_silence])

/-- Helper: on a silence frame no lag passes the threshold comparison when
the threshold is at most 1 (`cmnd[0] = 1` fails `1 < threshold`, and every
other in-range entry is the `NaN` of the zero running sum). -/
lemma cmndBelow_silence (len : ℕ) (cfg : YinConfig) (hθ : cfg.threshold ≤ 1)
    (t : ℕ) : cmndBelow (silenceFrame len) cfg t = false := by
  unfold cmndBelow cmndAt
  rcases Nat.eq_zero_or_pos t with rfl | hpos
  · simp [decide_eq_false (not_lt.mpr hθ)]
  · have hne : t ≠ 0 := Nat.pos_iff_ne_zero.mp hpos
    simp [hne, runningSumAt_silence]

/-- Helper: the threshold scan of a silence frame finds nothing. -/
lemma selectedTau_silence (len : ℕ) (cfg : YinConfig) (hθ : cfg.threshold ≤ 1) :
    selectedTau (silenceFrame len) cfg = none := by
  unfold selectedTau
  rw [List.find?_eq_none]
  intro x _
  simp [cmndBelow_silence len cfg hθ]

/-- C6: for every frame length and every config whose threshold is within
the specification's valid range (threshold ≤ 1), the estimator maps the
all-zero silence frame to the unvoiced result {freqHz: absent,
probability: 0} — it does not fail, even though every lag of this input
drives the running sum of the CMND recurrence to exactly zero. -/
theorem yin_silence_unvoiced (len : ℕ) (cfg : YinConfig)
    (hθ : cfg.threshold ≤ 1) :
    yin (silenceFrame len) cfg = ⟨none, 0⟩ := by
  unfold yin
  rw [selectedTau_silence len cfg hθ]

/-- Witness for `yin_silence_unvoiced` at a concrete silence frame and the
config used by both batch call sites at sample rate 48000. -/
theorem yin_silence_unvoiced_witness :
    yin (silenceFrame 8) ⟨0.12, 0.1, 48000, some 50, some 1200⟩ = ⟨none, 0⟩ :=
  yin_silence_unvoiced 8 ⟨0.12, 0.1, 48000, some 50, some 1200⟩
    (by with_unfolding_all decide)

/-- C1 counterexample: on the all-zero frame the running sum at lag 2 is
exactly zero, yet the estimator does not define `cmnd(2) = 0` — the entry
is the non-finite `NaN` (`none`), not `some 0`. -/
theorem cmnd_zero_sum_not_zero :
    runningSumAt (silenceFrame 8) zcfg 2 = 0 ∧
    cmndAt (silenceFrame 8) zcfg 2 ≠ some 0 := by
  with_unfolding_all decide

/-- C1 (amended): whenever the running sum of d(1..τ) is exactly zero at
an in-range lag τ ≥ 1, the CMND entry for that lag is the non-finite
JavaScript value `0·τ/0 = NaN` (`none`), not 0; that entry fails the
threshold comparison, so the scan can never select τ and no invalid value
propagates into the result. -/
theorem cmnd_zero_sum_skipped (frame : List ℚ) (cfg : YinConfig) (τ : ℕ)
    (h1 : 1 ≤ τ) (h2 : τ ≤ maxLagN cfg)
    (h0 : runningSumAt frame cfg τ = 0) :
    cmndAt frame cfg τ = none ∧ cmndBelow frame cfg τ = false ∧
    selectedTau frame cfg ≠ some τ := by
  have hne : τ ≠ 0 := by omega
  have hc : cmndAt frame cfg τ = none := by
    unfold cmndAt
    simp [hne, h2, h0]
  have hb : cmndBelow frame cfg τ = false := by
    unfold cmndBelow
    rw [hc]
  refine ⟨hc, hb, fun hsel => ?_⟩
  have hp := List.find?_some hsel
  rw [hb] at hp
  exact Bool.false_ne_true hp

/-- Witness for `cmnd_zero_sum_skipped` at the all-zero frame: lag 2 is in
range, its running sum is zero, and the conclusion holds there. -/
theorem cmnd_zero_sum_skipped_witness :
    cmndAt (silenceFrame 8) zcfg 2 = none ∧
    cmndBelow (silenceFrame 8) zcfg 2 = false ∧
    selectedTau (silenceFrame 8) zcfg ≠ some 2 :=
  cmnd_zero_sum_skipped (silenceFrame 8) zcfg 2
    (by with_unfolding_all decide)
    (by with_unfolding_all decide)
    (by with_unfolding_all decide)

/-- C2 counterexample: with `sampleRate = 0` and `minFreq = 1200 ≥ 50 =
maxFreq` (both malformed-config conditions at once) the estimator is not
rejected with a configuration error: the call proceeds and returns the
ordinary unvoiced `YinResult`. -/
theorem yin_malformed_cfg_ordinary_result :
    yin [1, 0, 1, 0] badCfg = ⟨none, 0⟩ := by
  with_unfolding_all decide

/-- C2 (amended): the estimator performs no configuration validation.  A
call with `sampleRate = 0` (for any frame, any optional frequency bounds,
and any threshold ≤ 1) proceeds through the (degenerate, lag-range `[0,0]`)
scan and returns the ordinary unvoiced result instead of failing. -/
theorem yin_no_config_validation (frame : List ℚ) (t pt : ℚ)
    (mf xf : Option ℚ) (hθ : t ≤ 1) :
    yin frame ⟨t, pt, 0, mf, xf⟩ = ⟨none, 0⟩ := by
  have hmax : maxLagN ⟨t, pt, 0, mf, xf⟩ = 0 := by
    unfold maxLagN
    simp
  have hmin : minLagN ⟨t, pt, 0, mf, xf⟩ = 0 := by
    unfold minLagN
    simp
  have hsel : selectedTau frame ⟨t, pt, 0, mf, xf⟩ = none := by
    unfold selectedTau
    rw [hmax, hmin]
    rw [List.find?_eq_none]
    intro x hx
    have hx0 : x = 0 := by
      have : List.range' 0 (0 + 1 - 0) = [0] := rfl
      rw [this] at hx
      simpa using hx
    subst hx0
    unfold cmndBelow cmndAt
    simp [decide_eq_false (not_lt.mpr hθ)]
  unfold yin
  rw [hsel]

/-- Witness for `yin_no_config_validation` at a concrete frame, the default
thresholds, and the doubly-malformed bounds of `badCfg`. -/
theorem yin_no_config_validation_witness :
    yin [1, 0, 1, 0] ⟨0.12, 0.1, 0, some 1200, some 50⟩ = ⟨none, 0⟩ :=
  yin_no_config_validation [1, 0, 1, 0] 0.12 0.1 (some 1200) (some 50)
    (by with_unfolding_all decide)

/-- C5 (failing input): on `c5frame` with the valid config `c5cfg` the
threshold scan selects lag 2, the parabolic refinement produces the
negative refined lag `-13/8`, and the estimator returns a present freqHz
of `-96/13 < 0` with probability `4/29` above the gate — freqHz is present
but not strictly positive. -/
theorem yin_negative_freq_bug :
    selectedTau c5frame c5cfg = some 2 ∧
    betterTauAt c5frame c5cfg 2 = some (-13/8) ∧
    yin c5frame c5cfg = ⟨some (.fin (-96/13)), 4/29⟩ ∧
    ((-96 : ℚ)/13) < 0 := by
  with_unfolding_all decide

/-- C9: for every real midi value `m`, `hzToMidi (midiToHz m)` is present
and equals `m` exactly (the two conversions are mutually inverse; in the
real-number model the floating tolerance is 0). -/
theorem hzToMidi_midiToHz_roundtrip (m : ℝ) :
    hzToMidi (midiToHz m) = some m := by
  have hpos : 0 < midiToHz m := by
    unfold midiToHz
    positivity
  unfold hzToMidi
  rw [if_neg (not_le.mpr hpos)]
  unfold midiToHz
  rw [mul_div_cancel_left₀ _ (by norm_num : (440 : ℝ) ≠ 0)]
  rw [Real.logb_rpow (by norm_num) (by norm_num)]
  congr 1
  ring

/-- C10: `ema` is the identity on its second argument whenever the previous
value is absent (`null`) or non-finite, and consequently the first voiced
tick of a freshly constructed tracker (EMA state still unset, also after
any number of unvoiced ticks, which leave the state untouched) emits
exactly the raw estimated frequency. -/
theorem ema_first_sample_identity (next : JNum) (alpha : ℚ) (f : ℚ) :
    ema none next alpha = next ∧
    ema (some .nf) next alpha = next ∧
    trackerTick none (some (.fin f)) = (some (.fin f), some (.fin f)) ∧
    trackerTick none none = (none, none) :=
  ⟨rfl, rfl, rfl, rfl⟩

/-- C3 counterexample: calling `start()` twice in a row does not terminate
the first run — after the two calls both animation-frame callbacks are
pending simultaneously, i.e. two analysis tick loops are scheduled
concurrently. -/
theorem tracker_double_start_overlap :
    (runEvents rtInit [TEvent.start, TEvent.start]).pending = [0, 1] ∧
    ¬ (runEvents rtInit [TEvent.start, TEvent.start]).pending.length ≤ 1 := by
  decide

/-- Helper: one scheduler event preserves the single-run invariant as long
as `start` only executes with nothing pending. -/
lemma singleRunState_step (s : RTState) (e : TEvent)
    (hInv : singleRunState s)
    (hstart : e = TEvent.start → s.pending = []) :
    singleRunState (rtStep s e) := by
  cases e with
  | start =>
    have hp : s.pending = [] := hstart rfl
    right
    exact ⟨s.nextId, rfl, by simp [rtStep, trackerStartStep, hp]⟩
  | stop =>
    rcases hInv with hp | ⟨i, hr, hp⟩
    · left
      unfold rtStep trackerStopStep
      cases hrf : s.rafId with
      | none => simpa using hp
      | some j => simp [hp]
    · left
      simp [rtStep, trackerStopStep, hr, hp]
  | fire i =>
    by_cases hij : i ∈ s.pending
    · rcases hInv with hp | ⟨j, hr, hp⟩
      · exact absurd hij (by simp [hp])
      · right
        refine ⟨s.nextId, by simp [rtStep, fireStep, hij], ?_⟩
        have hi : i = j := by
          rw [hp] at hij
          simpa using hij
        simp [rtStep, fireStep, hij, hp, hi, List.erase_cons]
    · have hs : rtStep s (TEvent.fire i) = s := by
        simp [rtStep, fireStep, hij]
      rw [hs]
      exact hInv

/-- Helper: a stop applied to a single-run state clears the pending set. -/
lemma singleRunState_stop (s : RTState) (hInv : singleRunState s) :
    (trackerStopStep s).pending = [] := by
  rcases hInv with hp | ⟨i, hr, hp⟩
  · unfold trackerStopStep
    cases hrf : s.rafId with
    | none => simpa using hp
    | some j => simp [hp]
  · simp [trackerStopStep, hr, hp, List.erase_cons]

/-- Helper: running a disciplined event sequence preserves the single-run
invariant. -/
lemma singleRunState_run :
    ∀ (evs : List TEvent) (s : RTState), singleRunState s →
      okRun s evs = true → singleRunState (runEvents s evs) := by
  intro evs
  induction evs with
  | nil => intro s h _; exact h
  | cons e r ih =>
    intro s hInv hok
    unfold okRun at hok
    rw [Bool.and_eq_true] at hok
    obtain ⟨hg, hr⟩ := hok
    have hstart : e = TEvent.start → s.pending = [] := by
      intro he
      subst he
      simpa [List.isEmpty_iff] using hg
    exact ih (rtStep s e) (singleRunState_step s e hInv hstart) hr

/-- C3 (amended): `start()` does not terminate an already-running loop (see
the double-start counterexample), but under the start/stop discipline in
which every `start` executes with nothing pending — in particular for
start, stop, start again — at most one tick is ever scheduled, and after a
final `stop()` nothing at all remains scheduled (no tick of the cancelled
run can fire again). -/
theorem tracker_start_stop_discipline (evs : List TEvent) (s : RTState)
    (hInv : singleRunState s) (hok : okRun s evs = true) :
    singleRunState (runEvents s evs) ∧
    (runEvents s evs).pending.length ≤ 1 ∧
    (runEvents s (evs ++ [TEvent.stop])).pending = [] := by
  have h1 := singleRunState_run evs s hInv hok
  refine ⟨h1, ?_, ?_⟩
  · rcases h1 with hp | ⟨i, _, hp⟩ <;> simp [hp]
  · have : runEvents s (evs ++ [TEvent.stop]) =
        trackerStopStep (runEvents s evs) := by
      unfold runEvents
      rw [List.foldl_append]
      rfl
    rw [this]
    exact singleRunState_stop _ h1

/-- Witness for `tracker_start_stop_discipline`: the concrete sequence
start, tick fires, stop, start from a fresh tracker is disciplined, and the
conclusion holds for it. -/
theorem tracker_start_stop_discipline_witness :
    singleRunState (runEvents rtInit [TEvent.start, TEvent.fire 0, TEvent.stop, TEvent.start]) ∧
    (runEvents rtInit [TEvent.start, TEvent.fire 0, TEvent.stop, TEvent.start]).pending.length ≤ 1 ∧
    (runEvents rtInit ([TEvent.start, TEvent.fire 0, TEvent.stop, TEvent.start] ++ [TEvent.stop])).pending = [] :=
  tracker_start_stop_discipline [TEvent.start, TEvent.fire 0, TEvent.stop, TEvent.start]
    rtInit (Or.inl rfl) (by decide)

/-- C4 counterexample: on `c4frame` with `c4cfg` the scan does find a lag
(τ = 4), and the claim's freqHz value `sampleRate / τ'` is the present
finite number 1 — but the returned result has freqHz absent (with
probability 3/5, not 0): the probability gate of yin.ts step 10, omitted
by the claim, rejected the voicing. -/
theorem yin_gated_result_cex :
    selectedTau c4frame c4cfg = some 4 ∧
    (yin c4frame c4cfg).freqHz = none ∧
    (yin c4frame c4cfg).probability = 3/5 ∧
    mkFreq c4cfg.sampleRate (betterTauAt c4frame c4cfg 4) = .fin 1 := by
  with_unfolding_all decide

/-- C4 (amended): the scan takes the first lag `τ ∈ [minLag, maxLag]` with
`cmnd(τ) < threshold` (not the global minimum); if none exists the result
is `{freqHz: absent, probability: 0}`; otherwise `probability = 1 − cmnd(τ)`
at the integer τ, and freqHz is `sampleRate / τ'` with the parabolically
refined lag τ' — unless `probability < probabilityThreshold`, in which
case freqHz is absent while the probability is still reported. -/
theorem yin_result_composition (frame : List ℚ) (cfg : YinConfig) :
    (selectedTau frame cfg = none → yin frame cfg = ⟨none, 0⟩) ∧
    (∀ τ, selectedTau frame cfg = some τ →
      minLagN cfg ≤ τ ∧ τ ≤ maxLagN cfg ∧
      (∀ t, minLagN cfg ≤ t → t < τ → cmndBelow frame cfg t = false) ∧
      ∃ c, cmndAt frame cfg τ = some c ∧ c < cfg.threshold ∧
        (yin frame cfg).probability = 1 - c ∧
        yin frame cfg = if 1 - c < cfg.probabilityThreshold then ⟨none, 1 - c⟩
          else ⟨some (mkFreq cfg.sampleRate (betterTauAt frame cfg τ)), 1 - c⟩) := by
  constructor
  · intro h
    unfold yin
    rw [h]
  · intro τ hτ
    unfold selectedTau at hτ
    obtain ⟨h1, h2, h3, h4⟩ :=
      find?_range'_eq_some (maxLagN cfg + 1 - minLagN cfg) (minLagN cfg) τ hτ
    have hle : τ ≤ maxLagN cfg := by omega
    refine ⟨h1, hle, h4, ?_⟩
    unfold cmndBelow at h3
    cases hc : cmndAt frame cfg τ with
    | none =>
      rw [hc] at h3
      exact absurd h3 (by simp)
    | some c =>
      rw [hc] at h3
      have hlt : c < cfg.threshold := of_decide_eq_true h3
      have hsel : selectedTau frame cfg = some τ := hτ
      have hyin : yin frame cfg =
          if 1 - c < cfg.probabilityThreshold then ⟨none, 1 - c⟩
          else ⟨some (mkFreq cfg.sampleRate (betterTauAt frame cfg τ)), 1 - c⟩ := by
        unfold yin
        rw [hsel]
        simp only [hc, Option.getD_some]
      refine ⟨c, rfl, hlt, ?_, hyin⟩
      rw [hyin]
      split <;> rfl

/-- Witness for `yin_result_composition`: its voiced-scan half applied at
lag 4 of the concrete gated input `c4frame` / `c4cfg`. -/
theorem yin_result_composition_witness :
    minLagN c4cfg ≤ 4 ∧ 4 ≤ maxLagN c4cfg ∧
    (∀ t, minLagN c4cfg ≤ t → t < 4 → cmndBelow c4frame c4cfg t = false) ∧
    ∃ c, cmndAt c4frame c4cfg 4 = some c ∧ c < c4cfg.threshold ∧
      (yin c4frame c4cfg).probability = 1 - c ∧
      yin c4frame c4cfg = if 1 - c < c4cfg.probabilityThreshold then ⟨none, 1 - c⟩
        else ⟨some (mkFreq c4cfg.sampleRate (betterTauAt c4frame c4cfg 4)), 1 - c⟩ :=
  (yin_result_composition c4frame c4cfg).2 4 (by with_unfolding_all decide)

/-- Helper: the two segmentation loops compute the same result from any
matching state; the only difference between them — whether `curStart` is
reset to `-1` when a note closes at an unvoiced frame — is invisible,
because `curStart` is only read while a note is open. -/
lemma segGo_file_eq_gen :
    ∀ (qs : List (Option QPitch)) (fd : ℚ) (i : ℕ) (s1 s2 : ℚ)
      (cm : Option QPitch) (notes : List SegNote),
      (cm.isSome → s1 = s2) →
      segGoFile fd i s1 cm notes qs = segGoGen fd i s2 cm notes qs := by
  intro qs
  induction qs with
  | nil =>
    intro fd i s1 s2 cm notes h
    cases cm with
    | none => rfl
    | some m =>
      have hs : s1 = s2 := h (by simp)
      subst hs
      rfl
  | cons q rest ih =>
    intro fd i s1 s2 cm notes h
    cases q with
    | none =>
      cases cm with
      | none =>
        simp only [segGoFile, segGoGen]
        exact ih fd (i + 1) s1 s2 none notes (by simp)
      | some m =>
        have hs : s1 = s2 := h (by simp)
        subst hs
        simp only [segGoFile, segGoGen]
        exact ih fd (i + 1) s1 (-1) none _ (by simp)
    | some p =>
      cases cm with
      | none =>
        simp only [segGoFile, segGoGen]
        exact ih fd (i + 1) _ _ (some p) notes (fun _ => rfl)
      | some m =>
        have hs : s1 = s2 := h (by simp)
        subst hs
        simp only [segGoFile, segGoGen]
        by_cases hd : pitchDiffers p m
        · rw [if_pos hd, if_pos hd]
          exact ih fd (i + 1) _ _ (some p) _ (fun _ => rfl)
        · rw [if_neg hd, if_neg hd]
          exact ih fd (i + 1) s1 s1 (some m) notes (fun _ => rfl)

/-- C8: for every decoded sample sequence and sample rate, the batch
pipeline of FileMelodyExtractor.tsx and the batch pipeline of
Generator.tsx produce identical note lists — same length and same start,
duration and midi at every position (the generated `id` fields, which are
not part of the model, are the only difference in the source). -/
theorem batch_pipelines_identical (samples : List ℚ) (sr : ℚ) :
    fileNotes samples sr = genNotes samples sr := by
  unfold fileNotes genNotes segmentFileNotes segmentGenNotes
  exact segGo_file_eq_gen _ _ _ _ _ _ _ (by simp)

/-- Helper: committing (or silently discarding) the open note preserves
the segmentation invariants: all committed durations at least 0.08, no
overlap, all committed notes ending by the current time `i·fd`, and no
notes at all when the frame duration is negative. -/
lemma segPush_inv (fd cs : ℚ) (i j : ℕ) (hj : j ≤ i) (hcs : cs = (j : ℚ) * fd)
    (notes : List SegNote) (m : QPitch)
    (hdur : ∀ n ∈ notes, (0.08 : ℚ) ≤ n.duration)
    (hpair : List.Pairwise (fun a b => a.start + a.duration ≤ b.start) notes)
    (hbound : 0 ≤ fd → ∀ n ∈ notes, n.start + n.duration ≤ cs)
    (hneg : fd < 0 → notes = []) :
    (∀ n ∈ (if (0.08 : ℚ) ≤ (i : ℚ) * fd - cs then
        notes ++ [⟨cs, (i : ℚ) * fd - cs, m⟩] else notes), (0.08 : ℚ) ≤ n.duration) ∧
    List.Pairwise (fun a b => a.start + a.duration ≤ b.start)
      (if (0.08 : ℚ) ≤ (i : ℚ) * fd - cs then
        notes ++ [⟨cs, (i : ℚ) * fd - cs, m⟩] else notes) ∧
    (0 ≤ fd → ∀ n ∈ (if (0.08 : ℚ) ≤ (i : ℚ) * fd - cs then
        notes ++ [⟨cs, (i : ℚ) * fd - cs, m⟩] else notes),
      n.start + n.duration ≤ (i : ℚ) * fd) ∧
    (fd < 0 → (if (0.08 : ℚ) ≤ (i : ℚ) * fd - cs then
        notes ++ [⟨cs, (i : ℚ) * fd - cs, m⟩] else notes) = []) := by
  have hij : (j : ℚ) ≤ (i : ℚ) := Nat.cast_le.mpr hj
  split_ifs with hpush
  · have hfd : 0 ≤ fd := by
      by_contra hlt
      push_neg at hlt
      have hd0 : (i : ℚ) * fd - cs ≤ 0 := by
        rw [hcs]
        nlinarith
      linarith
    have hcsle : cs ≤ (i : ℚ) * fd := by
      rw [hcs]
      nlinarith
    refine ⟨?_, ?_, ?_, ?_⟩
    · intro n hn
      rcases List.mem_append.mp hn with h | h
      · exact hdur n h
      · rw [List.mem_singleton] at h
        subst h
        exact hpush
    · rw [List.pairwise_append]
      refine ⟨hpair, by simp, ?_⟩
      intro a ha b hb
      rw [List.mem_singleton] at hb
      subst hb
      exact hbound hfd a ha
    · intro _ n hn
      rcases List.mem_append.mp hn with h | h
      · exact le_trans (hbound hfd n h) hcsle
      · rw [List.mem_singleton] at h
        subst h
        simp only
        linarith
    · intro hlt
      exact absurd hfd (not_le.mpr hlt)
  · refine ⟨hdur, hpair, ?_, hneg⟩
    intro hfd n hn
    have hcsle : cs ≤ (i : ℚ) * fd := by
      rw [hcs]
      nlinarith
    exact le_trans (hbound hfd n hn) hcsle

/-- Helper: the current-time bound grows with the loop index when the
frame duration is nonnegative. -/
lemma timeBound_mono (fd : ℚ) (hfd : 0 ≤ fd) (i : ℕ) :
    (i : ℚ) * fd ≤ ((i + 1 : ℕ) : ℚ) * fd := by
  have : (i : ℚ) ≤ ((i + 1 : ℕ) : ℚ) := by
    push_cast
    linarith
  exact mul_le_mul_of_nonneg_right this hfd

/-- Helper: the FileMelodyExtractor segmentation loop preserves its
invariants from any reachable intermediate state and delivers the
minimum-duration and no-overlap properties of its output. -/
lemma segGoFile_inv :
    ∀ (qs : List (Option QPitch)) (fd : ℚ) (i : ℕ) (cs : ℚ)
      (cm : Option QPitch) (notes : List SegNote),
      (∀ n ∈ notes, (0.08 : ℚ) ≤ n.duration) →
      List.Pairwise (fun a b => a.start + a.duration ≤ b.start) notes →
      (∀ m, cm = some m → ∃ j : ℕ, j ≤ i ∧ cs = (j : ℚ) * fd) →
      (0 ≤ fd → ∀ n ∈ notes, n.start + n.duration ≤
        cm.elim ((i : ℚ) * fd) (fun _ => cs)) →
      (fd < 0 → notes = []) →
      (∀ n ∈ segGoFile fd i cs cm notes qs, (0.08 : ℚ) ≤ n.duration) ∧
      List.Pairwise (fun a b => a.start + a.duration ≤ b.start)
        (segGoFile fd i cs cm notes qs) := by
  intro qs
  induction qs with
  | nil =>
    intro fd i cs cm notes hdur hpair hcs hbound hneg
    cases cm with
    | none => exact ⟨hdur, hpair⟩
    | some m =>
      obtain ⟨j, hj, hjcs⟩ := hcs m rfl
      obtain ⟨d1, d2, _, _⟩ :=
        segPush_inv fd cs i j hj hjcs notes m hdur hpair (fun h => hbound h) hneg
      exact ⟨d1, d2⟩
  | cons q rest ih =>
    intro fd i cs cm notes hdur hpair hcs hbound hneg
    cases q with
    | none =>
      cases cm with
      | none =>
        simp only [segGoFile]
        refine ih fd (i + 1) cs none notes hdur hpair (by intro m h; cases h) ?_ hneg
        intro hfd n hn
        exact le_trans (hbound hfd n hn) (by exact_mod_cast timeBound_mono fd hfd i)
      | some m =>
        obtain ⟨j, hj, hjcs⟩ := hcs m rfl
        obtain ⟨d1, d2, d3, d4⟩ :=
          segPush_inv fd cs i j hj hjcs notes m hdur hpair (fun h => hbound h) hneg
        simp only [segGoFile]
        refine ih fd (i + 1) cs none _ d1 d2 (by intro m h; cases h) ?_ d4
        intro hfd n hn
        exact le_trans (d3 hfd n hn) (by exact_mod_cast timeBound_mono fd hfd i)
    | some p =>
      cases cm with
      | none =>
        simp only [segGoFile]
        refine ih fd (i + 1) ((i : ℚ) * fd) (some p) notes hdur hpair
          (by intro m h; exact ⟨i, by omega, rfl⟩) ?_ hneg
        intro hfd n hn
        exact hbound hfd n hn
      | some m =>
        simp only [segGoFile]
        by_cases hd : pitchDiffers p m
        · rw [if_pos hd]
          obtain ⟨j, hj, hjcs⟩ := hcs m rfl
          obtain ⟨d1, d2, d3, d4⟩ :=
            segPush_inv fd cs i j hj hjcs notes m hdur hpair (fun h => hbound h) hneg
          refine ih fd (i + 1) ((i : ℚ) * fd) (some p) _ d1 d2
            (by intro m h; exact ⟨i, by omega, rfl⟩) ?_ d4
          intro hfd n hn
          exact d3 hfd n hn
        · rw [if_neg hd]
          refine ih fd (i + 1) cs (some m) notes hdur hpair ?_ ?_ hneg
          · intro m h
            obtain ⟨j, hj, hjcs⟩ := hcs m (by injection h with h; rw [h])
            exact ⟨j, by omega, hjcs⟩
          · intro hfd n hn
            exact hbound hfd n hn

/-- C7: for every frame duration and quantized pitch sequence — hence for
every input sample buffer and sample rate fed through either batch
pipeline — every committed note has duration at least the 0.08 s gate
(shorter segments are silently discarded), and no two notes in an output
list overlap in time (each note ends no later than the next begins); this
holds for both occurrences of the segmentation algorithm and for both full
pipelines. -/
theorem segmentation_min_duration_no_overlap (fd : ℚ)
    (qs : List (Option QPitch)) (samples : List ℚ) (sr : ℚ) :
    ((∀ n ∈ segmentFileNotes fd qs, (0.08 : ℚ) ≤ n.duration) ∧
      List.Pairwise (fun a b => a.start + a.duration ≤ b.start)
        (segmentFileNotes fd qs)) ∧
    ((∀ n ∈ segmentGenNotes fd qs, (0.08 : ℚ) ≤ n.duration) ∧
      List.Pairwise (fun a b => a.start + a.duration ≤ b.start)
        (segmentGenNotes fd qs)) ∧
    ((∀ n ∈ fileNotes samples sr, (0.08 : ℚ) ≤ n.duration) ∧
      List.Pairwise (fun a b => a.start + a.duration ≤ b.start)
        (fileNotes samples sr)) ∧
    ((∀ n ∈ genNotes samples sr, (0.08 : ℚ) ≤ n.duration) ∧
      List.Pairwise (fun a b => a.start + a.duration ≤ b.start)
        (genNotes samples sr)) := by
  have core : ∀ (fd' : ℚ) (qs' : List (Option QPitch)),
      (∀ n ∈ segmentFileNotes fd' qs', (0.08 : ℚ) ≤ n.duration) ∧
      List.Pairwise (fun a b => a.start + a.duration ≤ b.start)
        (segmentFileNotes fd' qs') := by
    intro fd' qs'
    exact segGoFile_inv qs' fd' 0 0 none []
      (by simp) (by simp) (by intro m h; cases h) (by simp) (by simp)
  have coreGen : ∀ (fd' : ℚ) (qs' : List (Option QPitch)),
      (∀ n ∈ segmentGenNotes fd' qs', (0.08 : ℚ) ≤ n.duration) ∧
      List.Pairwise (fun a b => a.start + a.duration ≤ b.start)
        (segmentGenNotes fd' qs') := by
    intro fd' qs'
    have he : segmentFileNotes fd' qs' = segmentGenNotes fd' qs' := by
      unfold segmentFileNotes segmentGenNotes
      exact segGo_file_eq_gen qs' fd' 0 0 (-1) none [] (by simp)
    rw [← he]
    exact core fd' qs'
  refine ⟨core fd qs, coreGen fd qs, ?_, ?_⟩
  · unfold fileNotes
    exact core _ _
  · unfold genNotes
    exact coreGen _ _

/-- Witness for `segmentation_min_duration_no_overlap`: its first
component applied to the one note produced by a concrete two-voiced-frame
run, whose duration 0.2 s passes the gate. -/
theorem segmentation_min_duration_no_overlap_witness :
    (0.08 : ℚ) ≤ (⟨0, 1/5, .val 60⟩ : SegNote).duration :=
  (segmentation_min_duration_no_overlap (1/10)
      [some (.val 60), some (.val 60), none] [] 1).1.1
    ⟨0, 1/5, .val 60⟩ (by with_unfolding_all decide)
